import Mathlib

/-!
Verification of the `espsegs` section-layout reporting tool (`src/main.rs`).

The development shallowly embeds the program's data model and algorithms:
* the flash-size option and the static chip/region catalog,
* chip-name normalization and catalog lookup,
* section filtering and stable sorting,
* region resolution (`resolve`),
* the f64-based proportional bar renderer (`print_memory`), modelled with an
  exact integer encoding of IEEE-754 binary64 round-to-nearest-even,
* the report loop with its blank-line separator logic and column widths.

Machine integers (`u64`, `usize`) are modelled as `ℕ`; the subtractions that
can overflow in Rust are modelled with explicit checked subtraction returning
`Option` (`none` models the debug-build panic / release-build wraparound).
-/

/-- The `FlashSize` CLI enum of `src/main.rs`. -/
inductive FlashSize where
  | f256Kb | f512Kb | f1Mb | f2Mb | f4Mb | f8Mb | f16Mb
  | f32Mb | f64Mb | f128Mb | f256Mb
deriving DecidableEq, Repr

/-- `FlashSize::bytes` from `src/main.rs`. -/
def FlashSize.bytes : FlashSize → ℕ
  | .f256Kb => 256 * 1024
  | .f512Kb => 512 * 1024
  | .f1Mb => 1024 * 1024
  | .f2Mb => 2 * 1024 * 1024
  | .f4Mb => 4 * 1024 * 1024
  | .f8Mb => 8 * 1024 * 1024
  | .f16Mb => 16 * 1024 * 1024
  | .f32Mb => 32 * 1024 * 1024
  | .f64Mb => 64 * 1024 * 1024
  | .f128Mb => 128 * 1024 * 1024
  | .f256Mb => 256 * 1024 * 1024

/-- A region of a chip's memory map (`MemoryRegion` in `src/main.rs`). -/
structure MemoryRegion where
  id : ℕ
  name : String
  start : ℕ
  length : ℕ
deriving DecidableEq, Repr

/-- A chip catalog entry (`Memory` in `src/main.rs`). -/
structure Memory where
  name : String
  regions : List MemoryRegion
deriving DecidableEq, Repr

/-- Rust `str::ends_with` on string slices, as used by `MemoryRegion::end`. -/
def strEndsWith (s suffixStr : String) : Bool :=
  suffixStr.data.isSuffixOf s.data

/-- `MemoryRegion::end` from `src/main.rs`: the effective end address.  The
catalog length is overridden by the supplied flash capacity exactly when the
region name ends with `"ROM"` and a capacity was supplied
(`self.name.ends_with("ROM") && flash_size.is_some()`). -/
def MemoryRegion.end' (r : MemoryRegion) (flashSize : Option FlashSize) : ℕ :=
  match flashSize, strEndsWith r.name "ROM" with
  | some f, true => r.start + f.bytes
  | some _, false => r.start + r.length
  | none, _ => r.start + r.length

/-- The default (`not(feature = "expert")`) chip catalog `MEMORY` from
`src/main.rs`, transcribed verbatim. -/
def MEMORY : List Memory := [
  { name := "ESP32",
    regions := [
      { id := 0, name := "DRAM", start := 0x3FFB0000, length := 176 * 1024 },
      { id := 1, name := "IRAM", start := 0x40080000, length := 128 * 1024 },
      { id := 2, name := "DROM", start := 0x3F400000, length := 4 * 1024 * 1024 },
      { id := 3, name := "IROM", start := 0x400D0000, length := 4 * 1024 * 1024 }] },
  { name := "ESP32-S2",
    regions := [
      { id := 0, name := "DRAM", start := 0x3FFB0000, length := 0x40000000 - 0x3FFB0000 },
      { id := 1, name := "IRAM", start := 0x40020000, length := 0x40070000 - 0x40020000 },
      { id := 2, name := "DROM", start := 0x3F000000, length := 0x3FF80000 - 0x3F000000 },
      { id := 3, name := "IROM", start := 0x40080000, length := 0x40800000 - 0x40080000 }] },
  { name := "ESP32-S3",
    regions := [
      { id := 0, name := "DRAM", start := 0x3FC88000, length := 0x3FCEFFFF - 0x3FC88000 },
      { id := 1, name := "IRAM", start := 0x40378000, length := 0x403DFFFF - 0x40378000 },
      { id := 2, name := "DROM", start := 0x3C000000, length := 0x3DFFFFFF - 0x3C000000 },
      { id := 3, name := "IROM", start := 0x42000000, length := 0x43FFFFFF - 0x42000000 }] },
  { name := "ESP32-C2",
    regions := [
      { id := 0, name := "DRAM", start := 0x3FCA0000, length := 0x3FCE0000 - 0x3FCA0000 },
      { id := 1, name := "IRAM", start := 0x4037C000, length := 0x403C0000 - 0x4037C000 },
      { id := 2, name := "DROM", start := 0x3C000000, length := 0x3C400000 - 0x3C000000 },
      { id := 3, name := "IROM", start := 0x42000000, length := 0x42400000 - 0x42000000 }] },
  { name := "ESP32-C3",
    regions := [
      { id := 0, name := "DRAM", start := 0x3FC80000, length := 0x50000 },
      { id := 1, name := "IRAM", start := 0x4037C000, length := 400 * 1024 },
      { id := 2, name := "DROM", start := 0x3C000000, length := 0x400000 },
      { id := 3, name := "IROM", start := 0x42000000, length := 0x400000 }] },
  { name := "ESP32-C6",
    regions := [
      { id := 0, name := "RAM", start := 0x40800000, length := 0x40880000 - 0x40800000 },
      { id := 1, name := "ROM", start := 0x42000000, length := 0x10000 <<< 8 }] },
  { name := "ESP32-H2",
    regions := [
      { id := 0, name := "DRAM", start := 0x40800000, length := 0x40850000 - 0x40800000 },
      { id := 1, name := "ROM", start := 0x42000000, length := 0x10000 <<< 8 }] }]

/-- Rust `char::to_ascii_lowercase` (only ASCII uppercase letters change). -/
def toAsciiLower (c : Char) : Char :=
  if 'A' ≤ c ∧ c ≤ 'Z' then Char.ofNat (c.toNat + 32) else c

/-- `normalize` from `src/main.rs`:
`chip_name.replace('-', "").to_ascii_lowercase()`. -/
def normalizeChip (chipName : String) : String :=
  ⟨(chipName.data.filter (· ≠ '-')).map toAsciiLower⟩

/-- The chip lookup in `main`:
`MEMORY.iter().find(|m| normalize(m.name) == normalize(&args.chip))`. -/
def chipLookup (chipArg : String) : Option Memory :=
  MEMORY.find? (fun m => normalizeChip m.name == normalizeChip chipArg)

/-- A binary section as exposed by the object-parsing collaborator:
name, start address and size (`u64`, modelled as `ℕ`). -/
structure Sect where
  name : String
  address : ℕ
  size : ℕ
deriving DecidableEq, Repr

/-- The predicate on regions used by the resolver loop in `main`:
`region.start <= section.address() && region.end(flash) >= address + size`. -/
def containsSection (flashSize : Option FlashSize) (addr size : ℕ)
    (r : MemoryRegion) : Bool :=
  decide (r.start ≤ addr) && decide (addr + size ≤ r.end' flashSize)

/-- Region resolution from `main`:
`chip_memory.regions.iter().find(|region| ...)`. -/
def resolve (regions : List MemoryRegion) (flashSize : Option FlashSize)
    (addr size : ℕ) : Option MemoryRegion :=
  regions.find? (containsSection flashSize addr size)

/-- The section filtering and stable sort in `main`:
`filter(|s| s.address() != 0 && s.size() != 0)` followed by the stable
`sort_by` on addresses (Rust's `slice::sort_by` is stable; `List.mergeSort`
is the stable sort modelling it). -/
def keptSections (ss : List Sect) : List Sect :=
  (ss.filter fun s => s.address != 0 && s.size != 0).mergeSort
    (fun a b => decide (a.address ≤ b.address))

/-- The first-column width computation in `main`: the maximum name length
over the retained sections. -/
def sectionNameMaxWidth (ss : List Sect) : ℕ :=
  ss.foldl (fun acc s => if s.name.length > acc then s.name.length else acc) 0

/-- Number of binary digits of `n` (`0` for `n = 0`), computed with explicit
structural fuel so that it reduces in the kernel; exact for every
`n < 2 ^ 256`, far above any quantity arising in this program. -/
def blenAux : ℕ → ℕ → ℕ
  | 0, _ => 0
  | fuel + 1, n => if n = 0 then 0 else blenAux fuel (n / 2) + 1

/-- Bit length of a natural number (see `blenAux`). -/
def blen (n : ℕ) : ℕ := blenAux 256 n

/-- Integer rounding of `num / den` for `den > 0`: round to nearest, ties to
the even neighbour (the IEEE-754 default rounding). -/
def rndNearestNat (num den : ℕ) : ℕ :=
  let q := num / den
  let r := num % den
  if 2 * r < den then q
  else if den < 2 * r then q + 1
  else if q % 2 = 0 then q else q + 1

/-- An IEEE-754 binary64 value, represented exactly as `m * 2 ^ e` with a
signed significand.  Overflow to infinity and subnormal underflow are not
modelled: every magnitude arising in this program lies well inside the
normal range of binary64, where rounding is exactly the 53-bit significand
rounding implemented here. -/
structure F64 where
  m : ℤ
  e : ℤ
deriving DecidableEq, Repr

/-- Floor of the base-2 logarithm of `a / b` for `a, b ≥ 1`: the bit-length
estimate `blen a - blen b` is exact or one too high, and one comparison
(`2 ^ e0 ≤ a / b`, cleared of denominators) corrects it. -/
def ratLog2 (a b : ℕ) : ℤ :=
  let e0 : ℤ := (blen a : ℤ) - (blen b : ℤ)
  if 0 ≤ e0 then (if b * 2 ^ e0.toNat ≤ a then e0 else e0 - 1)
  else (if b ≤ a * 2 ^ (-e0).toNat then e0 else e0 - 1)

/-- Round the positive rational `a / b` (`a, b ≥ 1`) to the nearest binary64
value: with `e = ⌊log₂ (a / b)⌋`, the significand is the round-half-even of
`(a / b) * 2 ^ (52 - e)`, a number in `[2 ^ 52, 2 ^ 53]`. -/
def flPos (a b : ℕ) : F64 :=
  let e := ratLog2 a b
  let k : ℤ := 52 - e
  let m := if 0 ≤ k then rndNearestNat (a * 2 ^ k.toNat) b
           else rndNearestNat a (b * 2 ^ (-k).toNat)
  ⟨m, e - 52⟩

/-- Correctly rounded binary64 value of the rational `a / b`.  (`b = 0`,
i.e. an IEEE infinity, is unreachable in the claims considered here: the
renderer only divides by `region_size`, and every precondition and call
site has `region_end > region_start`.) -/
def flRat (a : ℤ) (b : ℕ) : F64 :=
  if a = 0 ∨ b = 0 then ⟨0, 0⟩
  else if 0 < a then flPos a.toNat b
  else
    let f := flPos (-a).toNat b
    ⟨-f.m, f.e⟩

/-- Binary64 rounding of the dyadic `d * 2 ^ e`: rounding commutes with
scaling by powers of two inside the normal range, so round `d` and shift. -/
def flScaled (d : ℤ) (e : ℤ) : F64 :=
  let f := flRat d 1
  ⟨f.m, f.e + e⟩

/-- Rust `u64 as f64` / `usize as f64` conversion (round to nearest). -/
def natToF64 (n : ℕ) : F64 := flRat n 1

/-- IEEE binary64 subtraction: the correctly rounded exact difference. -/
def fsub (x y : F64) : F64 :=
  let e := min x.e y.e
  flScaled (x.m * 2 ^ (x.e - e).toNat - y.m * 2 ^ (y.e - e).toNat) e

/-- IEEE binary64 multiplication: the correctly rounded exact product. -/
def fmul (x y : F64) : F64 := flScaled (x.m * y.m) (x.e + y.e)

/-- IEEE binary64 division: the correctly rounded exact quotient
`(x.m / y.m) * 2 ^ (x.e - y.e)`, the sign moved to the numerator. -/
def fdiv (x y : F64) : F64 :=
  let f := flRat (if 0 ≤ y.m then x.m else -x.m) y.m.natAbs
  ⟨f.m, f.e + (x.e - y.e)⟩

/-- `usize::MAX` for the 64-bit targets this tool runs on. -/
def USIZE_MAX : ℕ := 2 ^ 64 - 1

/-- Rust `f64 as usize`: saturating cast truncating toward zero (negative
values collapse to `0`, values beyond `usize::MAX` to `usize::MAX`). -/
def f64toUsize (x : F64) : ℕ :=
  if x.m ≤ 0 then 0
  else min (if 0 ≤ x.e then x.m.toNat * 2 ^ x.e.toNat
            else x.m.toNat / 2 ^ (-x.e).toNat) USIZE_MAX

/-- `width as f64 / region_size as f64` from `print_memory`. -/
def barScale (width region_size : ℕ) : F64 :=
  fdiv (natToF64 width) (natToF64 region_size)

/-- The `offset` computation of `print_memory`:
`((width as f64 / region_size as f64) * (block_start as f64 - region_start as f64)) as usize`. -/
def barOffset (region_start region_end block_start width : ℕ) : ℕ :=
  f64toUsize (fmul (barScale width (region_end - region_start))
    (fsub (natToF64 block_start) (natToF64 region_start)))

/-- The `w` computation of `print_memory` (before `.max(1)`):
`((width as f64 / region_size as f64) * block_size as f64) as usize`. -/
def barFillWidth (region_start region_end block_size width : ℕ) : ℕ :=
  f64toUsize (fmul (barScale width (region_end - region_start))
    (natToF64 block_size))

/-- Rust checked `usize` subtraction: `none` models arithmetic overflow
(a panic in debug builds, wraparound in release builds). -/
def checkedSub (a b : ℕ) : Option ℕ := if b ≤ a then some (a - b) else none

/-- The full-block glyph `█` printed for a normal fill cell. -/
def fillGlyph : Char := '█'

/-- The thin left-eighth-block glyph `▏` printed when `w == 0`. -/
def thinGlyph : Char := '▏'

/-- `print_memory` from `src/main.rs`: the stream of characters printed,
paired with a flag recording whether the trailing-pad count
`width - w - offset` overflowed `usize`.  When it does, the characters
printed up to that point have already been emitted and the `true` flag
models the panic of the pad loop header (debug builds).
`region_size` is `region_end - region_start` (`u64` subtraction; all claims
and call sites have `region_end > region_start`). -/
def print_memory (region_start region_end block_start block_size width : ℕ) :
    List Char × Bool :=
  let offset := barOffset region_start region_end block_start width
  let w0 := barFillWidth region_start region_end block_size width
  let small := w0 == 0
  let w := max w0 1
  let opened := '[' :: (List.replicate offset ' ' ++
    List.replicate w (if small then thinGlyph else fillGlyph))
  match checkedSub width w >>= fun t => checkedSub t offset with
  | some pad => (opened ++ List.replicate pad ' ' ++ [']'], false)
  | none => (opened, true)

/-- Number of hexadecimal digits `{:x}` prints for `n` (at least one);
structural fuel, exact for `n < 16 ^ 17`, beyond `u64`. -/
def hexLenAux : ℕ → ℕ → ℕ
  | 0, _ => 1
  | fuel + 1, n => if n < 16 then 1 else hexLenAux fuel (n / 16) + 1

/-- Hexadecimal digit count (see `hexLenAux`). -/
def hexLen (n : ℕ) : ℕ := hexLenAux 16 n

/-- Number of decimal digits `{}` prints for `n` (at least one);
structural fuel, exact for `n < 10 ^ 20`, beyond `u64`. -/
def decLenAux : ℕ → ℕ → ℕ
  | 0, _ => 1
  | fuel + 1, n => if n < 10 then 1 else decLenAux fuel (n / 10) + 1

/-- Decimal digit count (see `decLenAux`). -/
def decLen (n : ℕ) : ℕ := decLenAux 19 n

/-- The bar width handed to `print_memory` by `main`:
`args.width - section_name_max_width - 26`, two unchecked `usize`
subtractions (the code comment reads
`26 = address + size + spaces + brackets + region name`). -/
def barTotalWidth (confWidth nameMaxW : ℕ) : Option ℕ :=
  checkedSub confWidth nameMaxW >>= fun t => checkedSub t 26

/-- Length in characters of one printed section line: the base columns
`"{:width$} {:8x} {:7}"` (string left-aligned padded to the name-column
width, numbers right-aligned padded to their minimum widths), and, when a
region resolved, the region column `" {:8} "` plus the bracketed bar.
`none` models a panic (bar-width underflow or the renderer's pad
underflow). -/
def lineLen (nameW confWidth : ℕ) (flashSize : Option FlashSize)
    (s : Sect) (r : Option MemoryRegion) : Option ℕ :=
  let base := max nameW s.name.length + 1 + max 8 (hexLen s.address) + 1 +
    max 7 (decLen s.size)
  match r with
  | none => some base
  | some reg =>
    match barTotalWidth confWidth nameW with
    | none => none
    | some bw =>
      let bar := print_memory reg.start (reg.end' flashSize) s.address s.size bw
      if bar.2 then none
      else some (base + 1 + max 8 reg.name.length + 1 + bar.1.length)

/-- The column-rendering pass of the report loop, keeping the line length of
each section in order; `none` models the first panic encountered. -/
def renderSections (regions : List MemoryRegion) (flashSize : Option FlashSize)
    (confWidth nameW : ℕ) : List Sect → Option (List ℕ)
  | [] => some []
  | s :: rest =>
    match lineLen nameW confWidth flashSize s
        (resolve regions flashSize s.address s.size) with
    | none => none
    | some len =>
      (renderSections regions flashSize confWidth nameW rest).map (len :: ·)

/-- One line of the printed report: the blank separator line, or a section
line together with the region the section resolved to (if any). -/
inductive OutLine where
  | blank : OutLine
  | sectionLine : Sect → Option MemoryRegion → OutLine
deriving DecidableEq, Repr

/-- The report loop of `main`: the sequence of separator and section lines.
`last` is `last_region`, initialized to `usize::MAX` by the caller.  (The
column rendering of each section line, including its possible panic, is
modelled separately by `lineLen` / `renderSections`.) -/
def reportLines (regions : List MemoryRegion) (flashSize : Option FlashSize) :
    List Sect → ℕ → List OutLine
  | [], _ => []
  | s :: rest, last =>
    match resolve regions flashSize s.address s.size with
    | some r =>
      (if r.id ≠ last then [OutLine.blank] else []) ++
        OutLine.sectionLine s (some r) ::
          reportLines regions flashSize rest r.id
    | none =>
      OutLine.sectionLine s none :: reportLines regions flashSize rest last

/-- Observable outcome of a run: exit code, the diagnostic printed on the
unknown-chip path, and the report lines printed. -/
structure ProgOutput where
  exitCode : ℕ
  diagnostic : Option String
  lines : List OutLine
deriving DecidableEq, Repr

/-- `main` from `src/main.rs`, with the object file already parsed into its
section list: filter and sort the sections, look up the chip, then either
print the fixed `"Unknown chip"` diagnostic and exit with code 1 having
printed no section line, or print the report and exit 0. -/
def runProg (chipArg : String) (flashSize : Option FlashSize)
    (ss : List Sect) : ProgOutput :=
  match chipLookup chipArg with
  | none => ⟨1, some "Unknown chip", []⟩
  | some m =>
    ⟨0, none, reportLines m.regions flashSize (keptSections ss) USIZE_MAX⟩

/-- Modelled from the spec: the separator policy in the specification's own
words — a tracked identifier of type `Option ℕ` starting at `none`
("none yet"); a blank line is emitted before a section exactly when it has
a resolved region whose identifier differs from the tracked one, after
which the tracked identifier is updated; sections with no resolved region
neither emit a separator nor update the tracked identifier. -/
def reportLinesSpec (regions : List MemoryRegion)
    (flashSize : Option FlashSize) :
    List Sect → Option ℕ → List OutLine
  | [], _ => []
  | s :: rest, tracked =>
    match resolve regions flashSize s.address s.size with
    | some r =>
      (if tracked ≠ some r.id then [OutLine.blank] else []) ++
        OutLine.sectionLine s (some r) ::
          reportLinesSpec regions flashSize rest (some r.id)
    | none =>
      OutLine.sectionLine s none :: reportLinesSpec regions flashSize rest tracked

/-- The sections carried by the section lines of a report, in print order. -/
def printedSections : List OutLine → List Sect
  | [] => []
  | OutLine.blank :: rest => printedSections rest
  | OutLine.sectionLine s _ :: rest => s :: printedSections rest

/-- Characterization of `List.find?` as returning the first element
satisfying the predicate. -/
lemma find?_eq_some_iff_first {α : Type} (p : α → Bool) :
    ∀ (l : List α) (a : α), l.find? p = some a ↔
      p a = true ∧ ∃ l₁ l₂, l = l₁ ++ a :: l₂ ∧ ∀ x ∈ l₁, p x = false := by
  intro l
  induction l with
  | nil => simp
  | cons x xs ih =>
    intro a
    by_cases hx : p x = true
    · rw [List.find?_cons_of_pos _ hx]
      constructor
      · rintro h
        obtain rfl : x = a := by simpa using h
        exact ⟨hx, [], xs, rfl, by simp⟩
      · rintro ⟨hpa, l₁, l₂, hsplit, hall⟩
        match l₁, hsplit, hall with
        | [], hsplit, hall =>
          obtain ⟨rfl, rfl⟩ := List.cons_eq_cons.mp hsplit
          rfl
        | y :: l₁', hsplit, hall =>
          obtain ⟨rfl, htl⟩ := List.cons_eq_cons.mp hsplit
          have := hall x (by simp)
          simp [this] at hx
    · have hx' : p x = false := by simpa using hx
      rw [List.find?_cons_of_neg _ hx, ih a]
      constructor
      · rintro ⟨hpa, l₁, l₂, rfl, hall⟩
        refine ⟨hpa, x :: l₁, l₂, rfl, ?_⟩
        intro z hz
        rcases List.mem_cons.mp hz with rfl | hz
        · exact hx'
        · exact hall z hz
      · rintro ⟨hpa, l₁, l₂, hsplit, hall⟩
        match l₁, hsplit, hall with
        | [], hsplit, hall =>
          obtain ⟨rfl, rfl⟩ := List.cons_eq_cons.mp hsplit
          simp [hpa] at hx'
        | y :: l₁', hsplit, hall =>
          obtain ⟨rfl, htl⟩ := List.cons_eq_cons.mp hsplit
          exact ⟨hpa, l₁', l₂, htl, fun z hz => hall z (by simp [hz])⟩

/-- The resolver predicate, as a proposition. -/
lemma containsSection_iff (flashSize : Option FlashSize) (addr size : ℕ)
    (r : MemoryRegion) :
    containsSection flashSize addr size r = true ↔
      r.start ≤ addr ∧ addr + size ≤ r.end' flashSize := by
  simp [containsSection]

/-- Claim C1: for every region list, optional flash capacity, and section
with address `addr` and size `size`, `resolve` returns a region iff some
region `r` in the list satisfies `r.start ≤ addr` and
`addr + size ≤ r.end' capacity`, and the region returned is the first such
region in catalog declaration order (first match on ties/overlaps);
otherwise it returns no region. -/
theorem resolve_first_match (regions : List MemoryRegion)
    (flashSize : Option FlashSize) (addr size : ℕ) :
    (∀ r, resolve regions flashSize addr size = some r ↔
      (r.start ≤ addr ∧ addr + size ≤ r.end' flashSize) ∧
      ∃ pre post, regions = pre ++ r :: post ∧
        ∀ r' ∈ pre, ¬(r'.start ≤ addr ∧ addr + size ≤ r'.end' flashSize)) ∧
    (resolve regions flashSize addr size = none ↔
      ∀ r ∈ regions, ¬(r.start ≤ addr ∧ addr + size ≤ r.end' flashSize)) := by
  constructor
  · intro r
    rw [resolve, find?_eq_some_iff_first, containsSection_iff]
    constructor
    · rintro ⟨hp, l₁, l₂, rfl, hall⟩
      exact ⟨hp, l₁, l₂, rfl, fun r' hr' hcontra => by
        have := hall r' hr'
        rw [← containsSection_iff flashSize addr size r'] at hcontra
        simp [hcontra] at this⟩
    · rintro ⟨hp, l₁, l₂, rfl, hall⟩
      refine ⟨hp, l₁, l₂, rfl, fun r' hr' => ?_⟩
      have := hall r' hr'
      rw [← containsSection_iff flashSize addr size r'] at this
      simpa using this
  · rw [resolve, List.find?_eq_none]
    constructor
    · intro h r hr hcontra
      have := h r hr
      rw [← containsSection_iff flashSize addr size r] at hcontra
      simp [hcontra] at this
    · intro h r hr
      have := h r hr
      rw [← containsSection_iff flashSize addr size r] at this
      simpa using this

/-- Witness for `resolve_first_match`: on the ESP32 catalog, the section at
`0x400D0010` of size `0x100` resolves to the fourth region (IROM), the
first three regions failing the containment predicate. -/
theorem resolve_first_match_witness :
    resolve [
      ⟨0, "DRAM", 0x3FFB0000, 176 * 1024⟩,
      ⟨1, "IRAM", 0x40080000, 128 * 1024⟩,
      ⟨2, "DROM", 0x3F400000, 4 * 1024 * 1024⟩,
      ⟨3, "IROM", 0x400D0000, 4 * 1024 * 1024⟩] none 0x400D0010 0x100 =
      some ⟨3, "IROM", 0x400D0000, 4 * 1024 * 1024⟩ := by
  refine ((resolve_first_match _ none 0x400D0010 0x100).1 _).mpr
    ⟨by decide, [⟨0, "DRAM", 0x3FFB0000, 176 * 1024⟩,
      ⟨1, "IRAM", 0x40080000, 128 * 1024⟩,
      ⟨2, "DROM", 0x3F400000, 4 * 1024 * 1024⟩], [], rfl, by decide⟩

/-- Claim C2: for every region and every supplied flash capacity, the
effective end is `start + capacity` exactly when the region's name ends
with `"ROM"` and a capacity was supplied; in every other case (non-ROM
name, or no capacity) it is `start +` the fixed catalog length, i.e.
non-ROM regions ignore the supplied capacity entirely. -/
theorem end_flash_override (r : MemoryRegion) (fs : FlashSize) :
    (strEndsWith r.name "ROM" = true →
      r.end' (some fs) = r.start + fs.bytes) ∧
    (strEndsWith r.name "ROM" = false →
      r.end' (some fs) = r.start + r.length) ∧
    r.end' none = r.start + r.length := by
  refine ⟨fun h => ?_, fun h => ?_, ?_⟩ <;> simp [MemoryRegion.end', *]

/-- Witness for `end_flash_override`: a 2 MB capacity overrides the length
of the ESP32-C6 ROM region but not of its RAM region. -/
theorem end_flash_override_witness :
    (⟨1, "ROM", 0x42000000, 0x10000 <<< 8⟩ : MemoryRegion).end'
        (some FlashSize.f2Mb) = 0x42000000 + 2 * 1024 * 1024 ∧
    (⟨0, "RAM", 0x40800000, 0x40880000 - 0x40800000⟩ : MemoryRegion).end'
        (some FlashSize.f2Mb) = 0x40800000 + (0x40880000 - 0x40800000) :=
  ⟨(end_flash_override _ FlashSize.f2Mb).1 (by decide),
   (end_flash_override _ FlashSize.f2Mb).2.1 (by decide)⟩

/-- Claim C3 (code bug): at the valid renderer input `region_start = 0`,
`region_end = 2 ^ 60`, `block_start = 2 ^ 60 - 1`, `block_size = 1`,
`width = 1` (region non-degenerate, width at least 1, section contained in
the region and flush against its right edge), the f64 rounding yields
`offset = 1` and thin-marker fill `w = 1`, and the unchecked trailing-pad
computation `width - w - offset` overflows `usize` instead of being clamped
at zero: the renderer emits `"[ ▏"` and panics, producing no bar of total
length `width + 2`. -/
theorem print_memory_pad_underflow :
    print_memory 0 (2 ^ 60) (2 ^ 60 - 1) 1 1 = (['[', ' ', '▏'], true) ∧
    barOffset 0 (2 ^ 60) (2 ^ 60 - 1) 1 = 1 ∧
    barFillWidth 0 (2 ^ 60) 1 1 = 0 ∧
    (0 : ℕ) < 2 ^ 60 ∧ (2 ^ 60 - 1) + 1 ≤ 2 ^ 60 ∧ (1 : ℕ) ≤ 1 := by
  set_option maxRecDepth 100000 in decide

set_option maxHeartbeats 1000000 in
/-- Claim C4: whenever the computed fill width (`w` in `print_memory`,
before `.max(1)`) is zero, the renderer emits exactly one cell of the
distinct thin-marker glyph `▏` instead of the full glyph, and the layout
(trailing pad) uses fill width 1 instead of 0; whenever the computed fill
width is at least 1 it emits that many cells of the full glyph `█`. -/
theorem thin_marker_rule
    (region_start region_end block_start block_size width : ℕ) :
    (barFillWidth region_start region_end block_size width = 0 →
      print_memory region_start region_end block_start block_size width =
        (match checkedSub width 1 >>= fun t =>
            checkedSub t (barOffset region_start region_end block_start width) with
         | some pad =>
           ('[' :: (List.replicate
               (barOffset region_start region_end block_start width) ' ' ++
             [thinGlyph]) ++ List.replicate pad ' ' ++ [']'], false)
         | none =>
           ('[' :: (List.replicate
               (barOffset region_start region_end block_start width) ' ' ++
             [thinGlyph]), true))) ∧
    (1 ≤ barFillWidth region_start region_end block_size width →
      print_memory region_start region_end block_start block_size width =
        (match checkedSub width
              (barFillWidth region_start region_end block_size width) >>= fun t =>
            checkedSub t (barOffset region_start region_end block_start width) with
         | some pad =>
           ('[' :: (List.replicate
               (barOffset region_start region_end block_start width) ' ' ++
             List.replicate
               (barFillWidth region_start region_end block_size width) fillGlyph) ++
             List.replicate pad ' ' ++ [']'], false)
         | none =>
           ('[' :: (List.replicate
               (barOffset region_start region_end block_start width) ' ' ++
             List.replicate
               (barFillWidth region_start region_end block_size width) fillGlyph),
             true))) := by
  constructor
  · intro h
    simp only [print_memory, h, beq_self_eq_true, if_true, Nat.zero_max,
      List.replicate_one]
  · intro h
    have h0 : (barFillWidth region_start region_end block_size width == 0) =
        false := by
      simp only [beq_eq_false_iff_ne, ne_eq]
      omega
    have hmax : max (barFillWidth region_start region_end block_size width) 1 =
        barFillWidth region_start region_end block_size width :=
      Nat.max_eq_left h
    simp only [print_memory, h0, hmax, Bool.false_eq_true, if_false]

/-- Witness for `thin_marker_rule`: the thin-marker case on a 256-byte
section of the 4 MiB ESP32 IROM region at bar width 89, and the full-glyph
case on a half-region section. -/
theorem thin_marker_rule_witness :
    print_memory 0x400D0000 0x404D0000 0x400D0010 0x100 89 =
      ('[' :: thinGlyph :: (List.replicate 88 ' ' ++ [']']), false) ∧
    print_memory 0 100 10 50 10 =
      ('[' :: ' ' :: (List.replicate 5 fillGlyph ++
        List.replicate 4 ' ' ++ [']']), false) := by
  constructor
  · exact ((thin_marker_rule 0x400D0000 0x404D0000 0x400D0010 0x100 89).1
      (by set_option maxRecDepth 100000 in decide)).trans
      (by set_option maxRecDepth 100000 in decide)
  · exact ((thin_marker_rule 0 100 10 50 10).2
      (by set_option maxRecDepth 100000 in decide)).trans
      (by set_option maxRecDepth 100000 in decide)

/-- Claim C7 (code bug): with the default configured line width 120 and the
single retained section `.text` (name-column width 5) resolving to the
ESP32 IROM region, `main` passes bar width `120 - 5 - 26 = 89` to the
renderer, but the non-bar columns occupy 29 characters
(1 + 8 + 1 + 7 + 1 + 8 + 1 separators/numbers/region name plus the two
brackets), so the printed line is 123 = 120 + 3 characters long — not the
configured 120. -/
theorem line_length_exceeds_width :
    sectionNameMaxWidth [⟨".text", 0x400D0010, 0x100⟩] = 5 ∧
    barTotalWidth 120 5 = some 89 ∧
    lineLen 5 120 none ⟨".text", 0x400D0010, 0x100⟩
      (some ⟨3, "IROM", 0x400D0000, 4 * 1024 * 1024⟩) = some 123 ∧
    (123 : ℕ) = 120 + 3 := by
  set_option maxRecDepth 100000 in decide

/-- Claim C9: for chip `"ESP32"` with no flash capacity supplied, a section
at `0x400D0010` of size `0x100` resolves to the IROM region (catalog start
`0x400D0000`, length 4 MiB, effective end `0x404D0000`), and at the bar
width `89` the program derives from its default line width the rendered bar
has offset 0 and a single-cell thin-marker fill. -/
theorem esp32_scenario :
    (chipLookup "ESP32").map (fun m => resolve m.regions none 0x400D0010 0x100) =
      some (some ⟨3, "IROM", 0x400D0000, 4 * 1024 * 1024⟩) ∧
    (⟨3, "IROM", 0x400D0000, 4 * 1024 * 1024⟩ : MemoryRegion).end' none =
      0x404D0000 ∧
    sectionNameMaxWidth [⟨".text", 0x400D0010, 0x100⟩] = 5 ∧
    barTotalWidth 120 5 = some 89 ∧
    barOffset 0x400D0000 0x404D0000 0x400D0010 89 = 0 ∧
    barFillWidth 0x400D0000 0x404D0000 0x100 89 = 0 ∧
    print_memory 0x400D0000 0x404D0000 0x400D0010 0x100 89 =
      ('[' :: thinGlyph :: (List.replicate 88 ' ' ++ [']']), false) := by
  set_option maxRecDepth 100000 in decide

/-- The comparator `keptSections` sorts by is transitive. -/
lemma sectLe_trans (a b c : Sect) :
    decide (a.address ≤ b.address) = true →
    decide (b.address ≤ c.address) = true →
    decide (a.address ≤ c.address) = true := by
  simp only [decide_eq_true_eq]
  omega

/-- The comparator `keptSections` sorts by is total. -/
lemma sectLe_total (a b : Sect) :
    (decide (a.address ≤ b.address) || decide (b.address ≤ a.address)) = true := by
  simp only [Bool.or_eq_true, decide_eq_true_eq]
  omega

/-- The report loop prints exactly the sections it is given, in order. -/
lemma printedSections_reportLines (regions : List MemoryRegion)
    (flashSize : Option FlashSize) :
    ∀ (ks : List Sect) (last : ℕ),
      printedSections (reportLines regions flashSize ks last) = ks := by
  intro ks
  induction ks with
  | nil => intro last; rfl
  | cons s rest ih =>
    intro last
    simp only [reportLines]
    cases hres : resolve regions flashSize s.address s.size with
    | some r =>
      by_cases hidn : r.id ≠ last <;>
        simp [hidn, printedSections, ih]
    | none => simp [printedSections, ih]

/-- Retained sections with one fixed address keep their original relative
order through the stable sort (the stability property). -/
lemma kept_filter_addr_eq (ss : List Sect) (k : ℕ) :
    (keptSections ss).filter (fun s => s.address == k) =
      (ss.filter fun s => s.address != 0 && s.size != 0).filter
        (fun s => s.address == k) := by
  have hks : keptSections ss =
      (ss.filter fun s => s.address != 0 && s.size != 0).mergeSort
        (fun a b => decide (a.address ≤ b.address)) := rfl
  have hck : ∀ a ∈ (ss.filter fun s => s.address != 0 && s.size != 0).filter
      (fun s => s.address == k), a.address = k := fun a ha => by
    simpa using (List.mem_filter.mp ha).2
  have hpw : ((ss.filter fun s => s.address != 0 && s.size != 0).filter
      (fun s => s.address == k)).Pairwise
      (fun a b => decide (a.address ≤ b.address) = true) :=
    List.pairwise_of_forall_mem_list fun a ha b hb => by
      simp only [decide_eq_true_eq, hck a ha, hck b hb, le_refl]
  have hstable : ((ss.filter fun s => s.address != 0 && s.size != 0).filter
      (fun s => s.address == k)).Sublist
      ((ss.filter fun s => s.address != 0 && s.size != 0).mergeSort
        (fun a b => decide (a.address ≤ b.address))) :=
    List.mergeSort_stable sectLe_trans sectLe_total hpw (List.filter_sublist _)
  have hcfix : ((ss.filter fun s => s.address != 0 && s.size != 0).filter
      (fun s => s.address == k)).filter (fun s => s.address == k) =
      (ss.filter fun s => s.address != 0 && s.size != 0).filter
        (fun s => s.address == k) :=
    List.filter_eq_self.mpr fun a ha => (List.mem_filter.mp ha).2
  have hsub2 : ((ss.filter fun s => s.address != 0 && s.size != 0).filter
      (fun s => s.address == k)).Sublist
      (((ss.filter fun s => s.address != 0 && s.size != 0).mergeSort
        (fun a b => decide (a.address ≤ b.address))).filter
          (fun s => s.address == k)) := by
    have h := hstable.filter (fun s => s.address == k)
    rwa [hcfix] at h
  have hperm : (((ss.filter fun s => s.address != 0 && s.size != 0).mergeSort
      (fun a b => decide (a.address ≤ b.address))).filter
        (fun s => s.address == k)).Perm
      ((ss.filter fun s => s.address != 0 && s.size != 0).filter
        (fun s => s.address == k)) :=
    (List.mergeSort_perm _ _).filter _
  rw [hks]
  exact (hsub2.eq_of_length hperm.length_eq.symm).symm

/-- Claim C5: the report's printed section list is exactly the input list
with every zero-address or zero-size section removed, sorted stably by
ascending address (equal addresses keep original input order); no line is
printed for a removed section and printed sections appear in non-decreasing
address order. -/
theorem kept_sections_spec (regions : List MemoryRegion)
    (flashSize : Option FlashSize) (last : ℕ) (ss : List Sect) :
    (∀ s ∈ keptSections ss, s.address ≠ 0 ∧ s.size ≠ 0) ∧
    (keptSections ss).Perm
      (ss.filter fun s => s.address != 0 && s.size != 0) ∧
    (keptSections ss).Pairwise (fun a b => a.address ≤ b.address) ∧
    (∀ k : ℕ, (keptSections ss).filter (fun s => s.address == k) =
      (ss.filter fun s => s.address != 0 && s.size != 0).filter
        (fun s => s.address == k)) ∧
    printedSections (reportLines regions flashSize (keptSections ss) last) =
      keptSections ss := by
  refine ⟨?_, List.mergeSort_perm _ _, ?_, kept_filter_addr_eq ss,
    printedSections_reportLines regions flashSize (keptSections ss) last⟩
  · intro s hs
    have hmem : s ∈ ss.filter fun s => s.address != 0 && s.size != 0 :=
      (List.mergeSort_perm _ _).mem_iff.mp hs
    have := (List.mem_filter.mp hmem).2
    simp only [bne_iff_ne, ne_eq, Bool.and_eq_true] at this
    simpa using this
  · have hs := List.sorted_mergeSort sectLe_trans sectLe_total
      (ss.filter fun s => s.address != 0 && s.size != 0)
    exact hs.imp fun h => by simpa using h

unseal List.merge List.mergeSort in
/-- Witness for `kept_sections_spec`: on a concrete section list the kept
sections are the nonzero ones in stable address order, and the report
prints exactly them. -/
theorem kept_sections_spec_witness :
    keptSections [⟨"a", 5, 1⟩, ⟨"b", 0, 3⟩, ⟨"c", 2, 0⟩, ⟨"d", 5, 2⟩,
        ⟨"e", 1, 1⟩] = [⟨"e", 1, 1⟩, ⟨"a", 5, 1⟩, ⟨"d", 5, 2⟩] ∧
    printedSections (reportLines [] none (keptSections [⟨"a", 5, 1⟩,
        ⟨"b", 0, 3⟩, ⟨"c", 2, 0⟩, ⟨"d", 5, 2⟩, ⟨"e", 1, 1⟩]) USIZE_MAX) =
      keptSections [⟨"a", 5, 1⟩, ⟨"b", 0, 3⟩, ⟨"c", 2, 0⟩, ⟨"d", 5, 2⟩,
        ⟨"e", 1, 1⟩] :=
  ⟨by decide,
   (kept_sections_spec [] none USIZE_MAX [⟨"a", 5, 1⟩, ⟨"b", 0, 3⟩,
     ⟨"c", 2, 0⟩, ⟨"d", 5, 2⟩, ⟨"e", 1, 1⟩]).2.2.2.2⟩

/-- A report that starts directly with a section line carrying a resolved
region can only do so when that region's id equals the incoming tracked id
(otherwise a blank separator would have been emitted first). -/
lemma reportLines_head_some (regions : List MemoryRegion)
    (flashSize : Option FlashSize) (ss : List Sect) (t : ℕ) (s2 : Sect)
    (r2 : MemoryRegion) (tail : List OutLine) :
    reportLines regions flashSize ss t =
      OutLine.sectionLine s2 (some r2) :: tail → r2.id = t := by
  cases ss with
  | nil => intro h; simp [reportLines] at h
  | cons s rest =>
    intro h
    simp only [reportLines] at h
    cases hres : resolve regions flashSize s.address s.size with
    | some r =>
      rw [hres] at h
      simp only [] at h
      by_cases hidn : r.id = t
      · rw [if_neg (by simpa using hidn), List.nil_append] at h
        obtain ⟨heq, -⟩ := List.cons_eq_cons.mp h
        simp only [OutLine.sectionLine.injEq, Option.some.injEq] at heq
        obtain ⟨-, rfl⟩ := heq
        exact hidn
      · rw [if_pos (by simpa using hidn)] at h
        obtain ⟨heq, -⟩ := List.cons_eq_cons.mp h
        simp at heq
    | none =>
      rw [hres] at h
      simp only [] at h
      obtain ⟨heq, -⟩ := List.cons_eq_cons.mp h
      simp at heq

/-- A report that starts with a blank followed by a section line carrying a
resolved region can only do so when that region's id differs from the
incoming tracked id (this is what triggered the blank). -/
lemma reportLines_head_blank (regions : List MemoryRegion)
    (flashSize : Option FlashSize) (ss : List Sect) (t : ℕ) (s2 : Sect)
    (r2 : MemoryRegion) (tail : List OutLine) :
    reportLines regions flashSize ss t =
      OutLine.blank :: OutLine.sectionLine s2 (some r2) :: tail →
      r2.id ≠ t := by
  cases ss with
  | nil => intro h; simp [reportLines] at h
  | cons s rest =>
    intro h
    simp only [reportLines] at h
    cases hres : resolve regions flashSize s.address s.size with
    | some r =>
      rw [hres] at h
      simp only [] at h
      by_cases hidn : r.id = t
      · rw [if_neg (by simpa using hidn), List.nil_append] at h
        obtain ⟨heq, -⟩ := List.cons_eq_cons.mp h
        simp at heq
      · rw [if_pos (by simpa using hidn), List.cons_append, List.nil_append] at h
        obtain ⟨-, htl⟩ := List.cons_eq_cons.mp h
        obtain ⟨heq, -⟩ := List.cons_eq_cons.mp htl
        simp only [OutLine.sectionLine.injEq, Option.some.injEq] at heq
        obtain ⟨-, rfl⟩ := heq
        exact hidn
    | none =>
      rw [hres] at h
      simp only [] at h
      obtain ⟨heq, -⟩ := List.cons_eq_cons.mp h
      simp at heq

/-- Two section lines with resolved regions that are printed with nothing
between them carry regions with the same identifier. -/
lemma reportLines_adj_same (regions : List MemoryRegion)
    (flashSize : Option FlashSize) :
    ∀ (ss : List Sect) (t : ℕ) (pre post : List OutLine) (s1 : Sect)
      (r1 : MemoryRegion) (s2 : Sect) (r2 : MemoryRegion),
      reportLines regions flashSize ss t =
        pre ++ OutLine.sectionLine s1 (some r1) ::
          OutLine.sectionLine s2 (some r2) :: post →
      r2.id = r1.id := by
  intro ss
  induction ss with
  | nil =>
    intro t pre post s1 r1 s2 r2 h
    simp only [reportLines] at h
    have := congrArg List.length h
    simp [List.length_append] at this
    omega
  | cons s rest ih =>
    intro t pre post s1 r1 s2 r2 h
    simp only [reportLines] at h
    cases hres : resolve regions flashSize s.address s.size with
    | some r =>
      rw [hres] at h
      simp only [] at h
      by_cases hidn : r.id = t
      · rw [if_neg (by simpa using hidn), List.nil_append] at h
        cases pre with
        | nil =>
          rw [List.nil_append] at h
          obtain ⟨heq, htl⟩ := List.cons_eq_cons.mp h
          simp only [OutLine.sectionLine.injEq, Option.some.injEq] at heq
          obtain ⟨-, rfl⟩ := heq
          exact reportLines_head_some regions flashSize rest r.id s2 r2 post htl
        | cons p pre' =>
          rw [List.cons_append] at h
          obtain ⟨-, htl⟩ := List.cons_eq_cons.mp h
          exact ih r.id pre' post s1 r1 s2 r2 htl
      · rw [if_pos (by simpa using hidn), List.cons_append, List.nil_append] at h
        cases pre with
        | nil =>
          rw [List.nil_append] at h
          obtain ⟨heq, -⟩ := List.cons_eq_cons.mp h
          simp at heq
        | cons p pre' =>
          rw [List.cons_append] at h
          obtain ⟨-, htl⟩ := List.cons_eq_cons.mp h
          cases pre' with
          | nil =>
            rw [List.nil_append] at htl
            obtain ⟨heq, htl2⟩ := List.cons_eq_cons.mp htl
            simp only [OutLine.sectionLine.injEq, Option.some.injEq] at heq
            obtain ⟨-, rfl⟩ := heq
            exact reportLines_head_some regions flashSize rest r.id s2 r2 post htl2
          | cons q pre'' =>
            rw [List.cons_append] at htl
            obtain ⟨-, htl2⟩ := List.cons_eq_cons.mp htl
            exact ih r.id pre'' post s1 r1 s2 r2 htl2
    | none =>
      rw [hres] at h
      simp only [] at h
      cases pre with
      | nil =>
        rw [List.nil_append] at h
        obtain ⟨heq, -⟩ := List.cons_eq_cons.mp h
        simp at heq
      | cons p pre' =>
        rw [List.cons_append] at h
        obtain ⟨-, htl⟩ := List.cons_eq_cons.mp h
        exact ih t pre' post s1 r1 s2 r2 htl

/-- Two section lines with resolved regions printed with exactly one blank
separator between them carry regions with different identifiers. -/
lemma reportLines_adj_blank (regions : List MemoryRegion)
    (flashSize : Option FlashSize) :
    ∀ (ss : List Sect) (t : ℕ) (pre post : List OutLine) (s1 : Sect)
      (r1 : MemoryRegion) (s2 : Sect) (r2 : MemoryRegion),
      reportLines regions flashSize ss t =
        pre ++ OutLine.sectionLine s1 (some r1) :: OutLine.blank ::
          OutLine.sectionLine s2 (some r2) :: post →
      r2.id ≠ r1.id := by
  intro ss
  induction ss with
  | nil =>
    intro t pre post s1 r1 s2 r2 h
    simp only [reportLines] at h
    have := congrArg List.length h
    simp [List.length_append] at this
    omega
  | cons s rest ih =>
    intro t pre post s1 r1 s2 r2 h
    simp only [reportLines] at h
    cases hres : resolve regions flashSize s.address s.size with
    | some r =>
      rw [hres] at h
      simp only [] at h
      by_cases hidn : r.id = t
      · rw [if_neg (by simpa using hidn), List.nil_append] at h
        cases pre with
        | nil =>
          rw [List.nil_append] at h
          obtain ⟨heq, htl⟩ := List.cons_eq_cons.mp h
          simp only [OutLine.sectionLine.injEq, Option.some.injEq] at heq
          obtain ⟨-, rfl⟩ := heq
          exact reportLines_head_blank regions flashSize rest r.id s2 r2 post htl
        | cons p pre' =>
          rw [List.cons_append] at h
          obtain ⟨-, htl⟩ := List.cons_eq_cons.mp h
          exact ih r.id pre' post s1 r1 s2 r2 htl
      · rw [if_pos (by simpa using hidn), List.cons_append, List.nil_append] at h
        cases pre with
        | nil =>
          rw [List.nil_append] at h
          obtain ⟨heq, -⟩ := List.cons_eq_cons.mp h
          simp at heq
        | cons p pre' =>
          rw [List.cons_append] at h
          obtain ⟨-, htl⟩ := List.cons_eq_cons.mp h
          cases pre' with
          | nil =>
            rw [List.nil_append] at htl
            obtain ⟨heq, htl2⟩ := List.cons_eq_cons.mp htl
            simp only [OutLine.sectionLine.injEq, Option.some.injEq] at heq
            obtain ⟨-, rfl⟩ := heq
            exact reportLines_head_blank regions flashSize rest r.id s2 r2 post htl2
          | cons q pre'' =>
            rw [List.cons_append] at htl
            obtain ⟨-, htl2⟩ := List.cons_eq_cons.mp htl
            exact ih r.id pre'' post s1 r1 s2 r2 htl2
    | none =>
      rw [hres] at h
      simp only [] at h
      cases pre with
      | nil =>
        rw [List.nil_append] at h
        obtain ⟨heq, -⟩ := List.cons_eq_cons.mp h
        simp at heq
      | cons p pre' =>
        rw [List.cons_append] at h
        obtain ⟨-, htl⟩ := List.cons_eq_cons.mp h
        exact ih t pre' post s1 r1 s2 r2 htl

/-- The code's sentinel-based loop refines the specification's
`Option`-tracked loop, for any pair of related tracked states, provided no
region id collides with the sentinel `usize::MAX`. -/
lemma reportLines_eq_spec_aux (regions : List MemoryRegion)
    (flashSize : Option FlashSize)
    (hid : ∀ r ∈ regions, r.id ≠ USIZE_MAX) :
    ∀ (ss : List Sect) (t : ℕ) (tr : Option ℕ),
      ((tr = none ∧ t = USIZE_MAX) ∨ tr = some t) →
      reportLines regions flashSize ss t =
        reportLinesSpec regions flashSize ss tr := by
  intro ss
  induction ss with
  | nil => intro t tr _; rfl
  | cons s rest ih =>
    intro t tr hrel
    simp only [reportLines, reportLinesSpec]
    cases hres : resolve regions flashSize s.address s.size with
    | some r =>
      have hrid : r.id ≠ USIZE_MAX := hid r (List.mem_of_find?_eq_some hres)
      have hcond : (r.id ≠ t) ↔ (tr ≠ some r.id) := by
        rcases hrel with ⟨rfl, rfl⟩ | rfl
        · simp [hrid]
        · simp [eq_comm]
      simp only []
      rw [ih r.id (some r.id) (Or.inr rfl)]
      by_cases hc : r.id ≠ t
      · rw [if_pos hc, if_pos (hcond.mp hc)]
      · rw [if_neg hc, if_neg (fun hcontra => hc (hcond.mpr hcontra))]
    | none =>
      simp only []
      rw [ih t tr hrel]

/-- Claim C6: during the printing loop a blank separator is emitted
immediately before a section exactly when it has a resolved region whose
identifier differs from the tracked last-region identifier (initialized to
a sentinel meaning "none yet"), after which the tracked identifier is
updated; sections with no resolved region never trigger a separator and
never update the tracked identifier.  Consequently adjacent printed
sections with resolved regions and no separator between them share one
region identifier, and a single separator between two such sections occurs
exactly when the identifiers differ. -/
theorem separator_spec (regions : List MemoryRegion)
    (flashSize : Option FlashSize) (ss : List Sect)
    (hid : ∀ r ∈ regions, r.id ≠ USIZE_MAX) :
    reportLines regions flashSize ss USIZE_MAX =
      reportLinesSpec regions flashSize ss none ∧
    (∀ pre post s1 r1 s2 r2,
      reportLines regions flashSize ss USIZE_MAX =
        pre ++ OutLine.sectionLine s1 (some r1) ::
          OutLine.sectionLine s2 (some r2) :: post →
      r2.id = r1.id) ∧
    (∀ pre post s1 r1 s2 r2,
      reportLines regions flashSize ss USIZE_MAX =
        pre ++ OutLine.sectionLine s1 (some r1) :: OutLine.blank ::
          OutLine.sectionLine s2 (some r2) :: post →
      r2.id ≠ r1.id) :=
  ⟨reportLines_eq_spec_aux regions flashSize hid ss USIZE_MAX none
      (Or.inl ⟨rfl, rfl⟩),
   fun pre post s1 r1 s2 r2 h =>
     reportLines_adj_same regions flashSize ss USIZE_MAX pre post s1 r1 s2 r2 h,
   fun pre post s1 r1 s2 r2 h =>
     reportLines_adj_blank regions flashSize ss USIZE_MAX pre post s1 r1 s2 r2 h⟩

/-- Witness for `separator_spec`: on the ESP32 catalog with two DRAM
sections followed by an IROM section, the loop output matches the
specification's separator placement, with a blank before the first section
and one blank exactly at the region change. -/
theorem separator_spec_witness :
    reportLines [
      ⟨0, "DRAM", 0x3FFB0000, 176 * 1024⟩,
      ⟨1, "IRAM", 0x40080000, 128 * 1024⟩,
      ⟨2, "DROM", 0x3F400000, 4 * 1024 * 1024⟩,
      ⟨3, "IROM", 0x400D0000, 4 * 1024 * 1024⟩] none
      [⟨".data", 0x3FFB0000, 16⟩, ⟨".bss", 0x3FFB0010, 16⟩,
       ⟨".text", 0x400D0010, 0x100⟩] USIZE_MAX =
    reportLinesSpec [
      ⟨0, "DRAM", 0x3FFB0000, 176 * 1024⟩,
      ⟨1, "IRAM", 0x40080000, 128 * 1024⟩,
      ⟨2, "DROM", 0x3F400000, 4 * 1024 * 1024⟩,
      ⟨3, "IROM", 0x400D0000, 4 * 1024 * 1024⟩] none
      [⟨".data", 0x3FFB0000, 16⟩, ⟨".bss", 0x3FFB0010, 16⟩,
       ⟨".text", 0x400D0010, 0x100⟩] none :=
  (separator_spec _ none _ (by decide)).1

/-- Claim C8: chip lookup succeeds iff some catalog chip's
hyphen-stripped, case-folded name equals the equally normalized input;
`"esp32-s3"` and `"ESP32S3"` resolve to the same entry; any identifier
matching no catalog chip (such as `"ESP99"`) makes the program print the
fixed `"Unknown chip"` diagnostic and exit with status 1 having printed no
section lines. -/
theorem chip_lookup_spec :
    (∀ chipArg : String, (chipLookup chipArg).isSome ↔
      ∃ m ∈ MEMORY, normalizeChip m.name = normalizeChip chipArg) ∧
    (∀ (chipArg : String) (flashSize : Option FlashSize) (ss : List Sect),
      chipLookup chipArg = none →
      runProg chipArg flashSize ss = ⟨1, some "Unknown chip", []⟩) ∧
    (chipLookup "esp32-s3" = chipLookup "ESP32S3" ∧
      (chipLookup "esp32-s3").isSome) ∧
    (∀ (flashSize : Option FlashSize) (ss : List Sect),
      runProg "ESP99" flashSize ss = ⟨1, some "Unknown chip", []⟩) := by
  refine ⟨?_, ?_, ⟨by decide, by decide⟩, ?_⟩
  · intro chipArg
    rw [chipLookup, List.find?_isSome]
    constructor
    · rintro ⟨m, hm, hp⟩
      exact ⟨m, hm, by simpa using hp⟩
    · rintro ⟨m, hm, hp⟩
      exact ⟨m, hm, by simpa using hp⟩
  · intro chipArg flashSize ss h
    simp only [runProg, h]
  · intro flashSize ss
    simp only [runProg, show chipLookup "ESP99" = none from by decide]

/-- Witness for `chip_lookup_spec`: the unknown identifier `"ESP99"` ends
the run with exit code 1, the diagnostic, and no report lines. -/
theorem chip_lookup_spec_witness :
    runProg "ESP99" none [⟨".text", 0x400D0010, 0x100⟩] =
      ⟨1, some "Unknown chip", []⟩ :=
  chip_lookup_spec.2.1 "ESP99" none [⟨".text", 0x400D0010, 0x100⟩] (by decide)

/-- The bar-width subtraction in `main` overflows exactly when the
configured width is below the name-column width plus 26. -/
lemma barTotalWidth_eq_none_iff (confWidth nameW : ℕ) :
    barTotalWidth confWidth nameW = none ↔ confWidth < nameW + 26 := by
  constructor
  · intro h
    by_contra hlt
    push_neg at hlt
    have h1 : nameW ≤ confWidth := by omega
    have h2 : 26 ≤ confWidth - nameW := by omega
    rw [barTotalWidth, checkedSub, if_pos h1] at h
    have h' : checkedSub (confWidth - nameW) 26 = none := h
    rw [checkedSub, if_pos h2] at h'
    exact Option.noConfusion h'
  · intro h
    rw [barTotalWidth]
    by_cases h1 : nameW ≤ confWidth
    · rw [checkedSub, if_pos h1]
      show checkedSub (confWidth - nameW) 26 = none
      rw [checkedSub, if_neg (by omega)]
    · rw [checkedSub, if_neg h1]
      rfl

/-- A report in which some section resolves to a region cannot be rendered
when the bar-width subtraction overflows: the loop reaches that section's
line and panics. -/
lemma renderSections_none_of_resolved (regions : List MemoryRegion)
    (flashSize : Option FlashSize) (confWidth nameW : ℕ)
    (hw : barTotalWidth confWidth nameW = none) :
    ∀ ks : List Sect,
      (∃ s ∈ ks, (resolve regions flashSize s.address s.size).isSome) →
      renderSections regions flashSize confWidth nameW ks = none := by
  intro ks
  induction ks with
  | nil => rintro ⟨s, hs, -⟩; cases hs
  | cons s rest ih =>
    rintro ⟨s', hs', hres⟩
    rw [renderSections]
    cases hr : resolve regions flashSize s.address s.size with
    | some r =>
      simp only [lineLen, hw]
    | none =>
      rcases List.mem_cons.mp hs' with rfl | hmem
      · rw [hr] at hres
        simp at hres
      · simp only [lineLen]
        rw [ih ⟨s', hmem, hres⟩]
        rfl

/-- Claim C10: the bar width is the unchecked `usize` subtraction
`configured width - max retained-section-name length - 26`, which overflows
exactly when the configured width is below that name length plus 26; in
that case any invocation in which at least one retained section resolves to
a region panics instead of rendering its report. -/
theorem bar_width_underflow_panics (regions : List MemoryRegion)
    (flashSize : Option FlashSize) (confWidth : ℕ) (ss : List Sect) :
    (∀ nameW : ℕ, barTotalWidth confWidth nameW = none ↔
      confWidth < nameW + 26) ∧
    (confWidth < sectionNameMaxWidth (keptSections ss) + 26 →
      (∃ s ∈ keptSections ss,
        (resolve regions flashSize s.address s.size).isSome) →
      renderSections regions flashSize confWidth
        (sectionNameMaxWidth (keptSections ss)) (keptSections ss) = none) :=
  ⟨fun nameW => barTotalWidth_eq_none_iff confWidth nameW,
   fun hlt hex => renderSections_none_of_resolved regions flashSize confWidth
     (sectionNameMaxWidth (keptSections ss))
     ((barTotalWidth_eq_none_iff _ _).mpr hlt) (keptSections ss) hex⟩

unseal List.merge List.mergeSort in
/-- Witness for `bar_width_underflow_panics`: one section of name length 5
resolving to a single catalog region, with configured width 20 < 5 + 26:
the rendering pass panics (`none`). -/
theorem bar_width_underflow_panics_witness :
    renderSections [⟨0, "RAM", 0, 4096⟩] none 20
      (sectionNameMaxWidth (keptSections [⟨".text", 16, 32⟩]))
      (keptSections [⟨".text", 16, 32⟩]) = none :=
  (bar_width_underflow_panics [⟨0, "RAM", 0, 4096⟩] none 20
    [⟨".text", 16, 32⟩]).2 (by decide) (by decide)
